import Mathlib

/-!
Verification of `gather_png.py` against its specification.

The program is modelled by a shallow embedding:

* A filesystem `FS` is a finite set of directories plus an association list
  from file paths to file contents (contents abstracted as `Nat`).
* A path is the list of its name components, relative to the process's
  working directory; the empty list `[]` is the working directory itself
  (Python's `Path(".")`, whose `parts` tuple is empty).
* `gather` mirrors `gather(top_dir)` from the source: it computes
  `out_dir = top_dir / "plots"`, performs `out_dir.mkdir(exist_ok=True)`,
  iterates over `top_dir.rglob("*.png")` (which yields *every* entry whose
  name matches, directories included), skips entries whose `parent` equals
  `out_dir`, and otherwise performs `shutil.copy(file, out_dir)` and
  increments the counter.  A `GatherResult.ok fs n` models a completed run
  whose summary line `Copied {n} files.` was printed; `GatherResult.err`
  models an uncaught filesystem exception (no summary printed), carrying
  the filesystem state at the moment of the failure.
* `rglob` in Python is lazy, but the loop body only ever writes directly
  inside `out_dir`, and entries of `out_dir` are skipped by the
  parent-equality check, so enumerating a snapshot of the tree taken right
  after `mkdir` is observationally equivalent; the snapshot order used here
  (files in table order, then directories) is one admissible instance of
  the unspecified `scandir` order.
-/

namespace GatherPng

/-- A filesystem path, as the list of its name components. -/
abbrev Path := List String

/-- The `name` (last component) of a path; `""` for the working directory. -/
def lastName (p : Path) : String := p.getLastD ""

/-- `fnmatch`-matching against the fixed glob `*.png`: the name ends with
`.png` (case-sensitive, the POSIX default used by `pathlib`). -/
def matchesPng (s : String) : Bool := ".png".data.isSuffixOf s.data

/-- A filesystem: the set of existing directories (other than the working
directory, which always exists) and the files with their contents. -/
structure FS where
  dirs : List Path
  files : List (Path × Nat)
deriving DecidableEq, Repr

/-- Lookup in the file table (first binding wins). -/
def lookupA : List (Path × Nat) → Path → Option Nat
  | [], _ => none
  | (q, v) :: rest, p => if q = p then some v else lookupA rest p

/-- Content of the file at `p`, if any. -/
def lookupFile (fs : FS) (p : Path) : Option Nat := lookupA fs.files p

/-- Create-or-overwrite the file at `p` with content `v`. -/
def setA (l : List (Path × Nat)) (p : Path) (v : Nat) : List (Path × Nat) :=
  (p, v) :: l.filter (fun qv => decide (qv.1 ≠ p))

/-- Filesystem after writing content `v` at path `p`. -/
def setFile (fs : FS) (p : Path) (v : Nat) : FS :=
  { fs with files := setA fs.files p v }

/-- Does `p` denote an existing directory?  `[]` (the working directory)
always exists. -/
def dirExists (fs : FS) (p : Path) : Bool := p.isEmpty || decide (p ∈ fs.dirs)

/-- The filesystem errors the program can die of. -/
inductive FsError
  | notFound
  | fileExists
  | isADirectory
deriving DecidableEq, Repr

/-- `p.mkdir(exist_ok=True)`: a no-op when `p` is already a directory,
`FileExistsError` when a file sits at `p`, `FileNotFoundError` when the
parent directory is missing, and otherwise creates `p`. -/
def mkdirExistOk (fs : FS) (p : Path) : Except FsError FS :=
  if p ∈ fs.dirs then .ok fs
  else if (lookupFile fs p).isSome then .error .fileExists
  else if dirExists fs p.dropLast then .ok { fs with dirs := p :: fs.dirs }
  else .error .notFound

/-- `shutil.copy(src, dstDir)` with `dstDir` a directory: raises
`IsADirectoryError` when `src` is a directory, `FileNotFoundError` when it
does not exist, and otherwise writes `src`'s content at
`dstDir / src.name`. -/
def copyIntoDir (fs : FS) (src dstDir : Path) : Except FsError FS :=
  if src ∈ fs.dirs then .error .isADirectory
  else
    match lookupFile fs src with
    | some v => .ok (setFile fs (dstDir ++ [lastName src]) v)
    | none => .error .notFound

/-- Is `q` strictly below `top` (a proper descendant)? -/
def isUnder : Path → Path → Bool
  | [], q => !q.isEmpty
  | _ :: _, [] => false
  | a :: ps, b :: qs => a == b && isUnder ps qs

/-- Does the entry at `p` match `top_dir.rglob("*.png")`: strictly below
`top` with a name matching the pattern? -/
def isMatchUnder (top p : Path) : Bool := isUnder top p && matchesPng (lastName p)

/-- The entries yielded by `top.rglob("*.png")`: every filesystem entry —
file or directory — strictly below `top` whose name matches the pattern. -/
def rglobPng (fs : FS) (top : Path) : List Path :=
  (fs.files.map Prod.fst ++ fs.dirs).filter (isMatchUnder top)

/-- Outcome of one run of the gatherer.  `ok fs n` is a normal completion
with the summary `Copied {n} files.` printed; `err fs e` is an uncaught
exception `e` with filesystem state `fs` (no summary printed). -/
inductive GatherResult
  | ok (fs : FS) (count : Nat)
  | err (fs : FS) (e : FsError)
deriving DecidableEq, Repr

/-- The `for file in top_dir.rglob("*.png")` loop of `gather`: skip entries
whose parent is `out`, copy the rest into `out`, counting the copies. -/
def gatherLoop (out : Path) : FS → List Path → Nat → GatherResult
  | fs, [], n => .ok fs n
  | fs, p :: rest, n =>
    if p.dropLast = out then gatherLoop out fs rest n
    else
      match copyIntoDir fs p out with
      | .ok fs2 => gatherLoop out fs2 rest (n + 1)
      | .error e => .err fs e

/-- `out_dir = top_dir / "plots"`. -/
def outDir (top : Path) : Path := top ++ ["plots"]

/-- The gatherer `gather(top_dir)` from `gather_png.py`. -/
def gather (fs : FS) (top : Path) : GatherResult :=
  match mkdirExistOk fs (outDir top) with
  | .ok fs1 => gatherLoop (outDir top) fs1 (rglobPng fs1 top) 0
  | .error e => .err fs e

/-- Split a character list at `/` separators. -/
def splitSlashAux : List Char → List Char → List (List Char)
  | [], acc => [acc.reverse]
  | c :: cs, acc =>
    if c = '/' then acc.reverse :: splitSlashAux cs [] else splitSlashAux cs (c :: acc)

/-- `pathlib.Path(s)` for a relative string `s`: split on `/`, dropping
empty components and `"."`; in particular `Path("") = Path(".")`, whose
component list is empty. -/
def pathOfString (s : String) : Path :=
  ((splitSlashAux s.data []).map String.mk).filter (fun c => c != "" && c != ".")

/-- `_prompt_for_dir`: the tkinter dialog is the environment, modelled by
the string it returns (`picked`, which is `""` when the user cancels); the
function itself returns `Path(picked)`. -/
def promptForDir (picked : String) : Path := pathOfString picked

/-- `main(argv)`: use the positional argument when present (argparse builds
`Path(s)` from it, and a `Path` is always truthy), otherwise prompt; then
run the gatherer. -/
def main (argvTop : Option String) (dialogPick : String) (fs : FS) : GatherResult :=
  match argvTop with
  | some s => gather fs (pathOfString s)
  | none => gather fs (promptForDir dialogPick)

/-- Filesystem state after a run, successful or aborted. -/
def finalFS : GatherResult → FS
  | .ok fs _ => fs
  | .err fs _ => fs

/-- The printed count of a run: `some n` when the summary line was printed
with count `n`, `none` when the run died without a summary. -/
def countOf : GatherResult → Option Nat
  | .ok _ n => some n
  | .err _ _ => none

/-- The paths of all files of the filesystem. -/
def fileKeys (fs : FS) : List Path := fs.files.map Prod.fst

/-- The matching *file* entries of the tree (spec side): files below `top`
whose name matches `*.png`. -/
def gatherSources (fs : FS) (top : Path) : List Path :=
  (fileKeys fs).filter (isMatchUnder top)

/-- The matching files that are due to be copied (spec side): matching
files below `top` whose parent is not the destination directory. -/
def matchingFilesToCopy (fs : FS) (top : Path) : List Path :=
  (fileKeys fs).filter (fun p => isMatchUnder top p && decide (p.dropLast ≠ outDir top))

/-- No directory below `top` has a name matching `*.png` (so the traversal
yields only regular files and the run cannot abort on a directory). -/
def noMatchingDirs (fs : FS) (top : Path) : Bool :=
  fs.dirs.all (fun d => !(isMatchUnder top d))

/-- No path is simultaneously a file and a directory. -/
def filesDirsDisjoint (fs : FS) : Bool :=
  (fileKeys fs).all (fun p => decide (p ∉ fs.dirs))

/-- Add directory `p` when absent (the effect of a successful
`mkdir(exist_ok=True)`). -/
def addDir (fs : FS) (p : Path) : FS :=
  if p ∈ fs.dirs then fs else { fs with dirs := p :: fs.dirs }

/-- The content the destination entry `out / nm` holds after copying the
sources `l` in order: the content of the last copied source named `nm`, or
the pre-existing content when no source is named `nm`. -/
def lastVal (fs : FS) (out : Path) (l : List Path) (nm : String) : Option Nat :=
  match (l.filter (fun p => decide (p.dropLast ≠ out) && (lastName p == nm))).getLast? with
  | some q => lookupFile fs q
  | none => lookupFile fs (out ++ [nm])

/-- An entry the copy loop cannot die on: either skipped, or an existing
regular file. -/
def goodEntry (fs : FS) (out : Path) (p : Path) : Prop :=
  p.dropLast = out ∨ (p ∉ fs.dirs ∧ (lookupFile fs p).isSome = true)

instance (fs : FS) (out p : Path) : Decidable (goodEntry fs out p) := by
  unfold goodEntry; infer_instance

/-! Basic lemmas about the filesystem primitives. -/

theorem lookupA_cons (q : Path) (w : Nat) (t : List (Path × Nat)) (p : Path) :
    lookupA ((q, w) :: t) p = if q = p then some w else lookupA t p := rfl

theorem lookupA_filter_ne (l : List (Path × Nat)) (p r : Path) (h : r ≠ p) :
    lookupA (l.filter (fun qv => decide (qv.1 ≠ p))) r = lookupA l r := by
  induction l with
  | nil => rfl
  | cons qv t ih =>
    obtain ⟨q, w⟩ := qv
    by_cases hq : q = p
    · subst hq
      rw [List.filter_cons_of_neg (by simp), ih, lookupA_cons,
        if_neg (fun hpr => h hpr.symm)]
    · rw [List.filter_cons_of_pos (by simpa using hq), lookupA_cons, lookupA_cons]
      by_cases hqr : q = r
      · simp [hqr]
      · rw [if_neg hqr, if_neg hqr, ih]

theorem lookupA_setA (l : List (Path × Nat)) (p r : Path) (v : Nat) :
    lookupA (setA l p v) r = if r = p then some v else lookupA l r := by
  unfold setA
  by_cases h : r = p
  · subst h; simp [lookupA_cons]
  · rw [lookupA_cons, if_neg (fun hpr => h hpr.symm), if_neg h, lookupA_filter_ne l p r h]

theorem lookupA_isSome_of_mem {l : List (Path × Nat)} {p : Path}
    (h : p ∈ l.map Prod.fst) : (lookupA l p).isSome = true := by
  induction l with
  | nil => simp at h
  | cons qv t ih =>
    obtain ⟨q, w⟩ := qv
    rw [lookupA_cons]
    by_cases hq : q = p
    · simp [hq]
    · rw [if_neg hq]
      rw [List.map_cons] at h
      rcases List.mem_cons.mp h with rfl | h2
      · exact absurd rfl hq
      · exact ih h2

theorem mem_of_lookupA_isSome {l : List (Path × Nat)} {p : Path}
    (h : (lookupA l p).isSome = true) : p ∈ l.map Prod.fst := by
  induction l with
  | nil => simp [lookupA] at h
  | cons qv t ih =>
    obtain ⟨q, w⟩ := qv
    by_cases hq : q = p
    · simp [hq]
    · rw [lookupA_cons, if_neg hq] at h
      rw [List.map_cons]
      exact List.mem_cons.mpr (Or.inr (ih h))

theorem lookupFile_setFile (fs : FS) (p r : Path) (v : Nat) :
    lookupFile (setFile fs p v) r = if r = p then some v else lookupFile fs r :=
  lookupA_setA fs.files p r v

theorem setFile_dirs (fs : FS) (p : Path) (v : Nat) : (setFile fs p v).dirs = fs.dirs := rfl

theorem lastName_concat (l : Path) (a : String) : lastName (l ++ [a]) = a :=
  List.getLastD_concat _ _ _

theorem eq_dropLast_concat {p : Path} (h : p ≠ []) : p.dropLast ++ [lastName p] = p := by
  cases p with
  | nil => exact absurd rfl h
  | cons a l =>
    have hne : a :: l ≠ [] := by simp
    have hdl := List.dropLast_concat_getLast hne
    rw [List.getLast_eq_getLastD] at hdl
    have hln : lastName (a :: l) = l.getLastD a := by
      simp [lastName, List.getLastD_eq_getLast?, List.getLast?_cons]
    rw [hln]
    exact hdl

theorem outDir_dropLast (top : Path) : (outDir top).dropLast = top := by
  simp [outDir]

theorem outDir_ne_nil (top : Path) : outDir top ≠ [] := by simp [outDir]

theorem outDir_ne_top (top : Path) : outDir top ≠ top := by
  intro h
  have := congrArg List.length h
  simp [outDir] at this

theorem lastName_outDir (top : Path) : lastName (outDir top) = "plots" :=
  lastName_concat top "plots"

theorem matchesPng_plots : matchesPng "plots" = false := by decide

theorem isMatchUnder_outDir (top : Path) : isMatchUnder top (outDir top) = false := by
  simp [isMatchUnder, lastName_outDir, matchesPng_plots]

theorem isUnder_append (top l : Path) : isUnder top (top ++ l) = !l.isEmpty := by
  induction top with
  | nil => rfl
  | cons a t ih => simp [isUnder, ih]

theorem addDir_files (fs : FS) (p : Path) : (addDir fs p).files = fs.files := by
  unfold addDir; split <;> rfl

theorem lookupFile_addDir (fs : FS) (p r : Path) :
    lookupFile (addDir fs p) r = lookupFile fs r := by
  unfold lookupFile; rw [addDir_files]

theorem mem_addDir_dirs (fs : FS) (p d : Path) :
    d ∈ (addDir fs p).dirs ↔ (d = p ∨ d ∈ fs.dirs) := by
  unfold addDir
  by_cases h : p ∈ fs.dirs
  · rw [if_pos h]
    exact ⟨Or.inr, fun h' => h'.elim (fun e => e ▸ h) id⟩
  · rw [if_neg h]
    simp [List.mem_cons]

theorem lastVal_congr_files {fsA fsB : FS} (h : fsA.files = fsB.files)
    (out : Path) (l : List Path) (nm : String) :
    lastVal fsA out l nm = lastVal fsB out l nm := by
  unfold lastVal
  cases hq : (l.filter (fun p => decide (p.dropLast ≠ out) && (lastName p == nm))).getLast? <;>
    simp [hq, lookupFile, h]

theorem mkdirExistOk_ok (fs : FS) (top : Path)
    (h1 : dirExists fs top = true) (h2 : lookupFile fs (outDir top) = none) :
    mkdirExistOk fs (outDir top) = Except.ok (addDir fs (outDir top)) := by
  unfold mkdirExistOk addDir
  by_cases hmem : outDir top ∈ fs.dirs
  · simp [hmem]
  · rw [if_neg hmem, if_neg (by simp [h2]), if_pos (by rwa [outDir_dropLast]), if_neg hmem]

theorem mkdirExistOk_ok_char {fs fs' : FS} {p : Path}
    (h : mkdirExistOk fs p = Except.ok fs') :
    fs'.files = fs.files ∧ (∀ d, d ∈ fs'.dirs ↔ (d = p ∨ d ∈ fs.dirs)) := by
  unfold mkdirExistOk at h
  split_ifs at h with hmem hfile hpar
  · rw [Except.ok.injEq] at h
    subst h
    exact ⟨rfl, fun d => ⟨Or.inr, fun h' => h'.elim (fun e => e ▸ hmem) id⟩⟩
  · rw [Except.ok.injEq] at h
    subst h
    exact ⟨rfl, fun d => by simp [List.mem_cons]⟩

theorem rglobPng_addDir_eq (fs : FS) (top : Path) (h3 : noMatchingDirs fs top = true) :
    rglobPng (addDir fs (outDir top)) top = gatherSources fs top := by
  unfold rglobPng gatherSources fileKeys
  rw [addDir_files, List.filter_append]
  have hdirs : (addDir fs (outDir top)).dirs.filter (isMatchUnder top) = [] := by
    rw [List.filter_eq_nil_iff]
    intro d hd
    rcases (mem_addDir_dirs fs (outDir top) d).mp hd with rfl | hd'
    · simp [isMatchUnder_outDir]
    · have hnm := (List.all_eq_true.mp h3) d hd'
      simp only [Bool.not_eq_true'] at hnm
      simp [hnm]
  rw [hdirs, List.append_nil]

theorem goodEntry_sources (fs : FS) (top : Path)
    (h5 : filesDirsDisjoint fs = true) :
    ∀ p ∈ gatherSources fs top, goodEntry (addDir fs (outDir top)) (outDir top) p := by
  intro p hp
  have hmem := List.mem_filter.mp hp
  right
  refine ⟨?_, ?_⟩
  · intro hdir
    rcases (mem_addDir_dirs _ _ _).mp hdir with rfl | hd
    · rw [isMatchUnder_outDir] at hmem
      exact absurd hmem.2 (by simp)
    · have hdisj := (List.all_eq_true.mp h5) p hmem.1
      rw [decide_eq_true_iff] at hdisj
      exact hdisj hd
  · rw [lookupFile_addDir]
    exact lookupA_isSome_of_mem hmem.1

theorem getLast?_singleton' (a : Path) : ([a] : List Path).getLast? = some a := rfl

/-! The central characterization of the copy loop. -/

theorem lastVal_setFile_step (fs : FS) (out p : Path) (t : List Path) (nm : String) (v : Nat)
    (hp : p.dropLast ≠ out) (hv : lookupFile fs p = some v) :
    lastVal (setFile fs (out ++ [lastName p]) v) out t nm = lastVal fs out (p :: t) nm := by
  have hkey_drop : (out ++ [lastName p]).dropLast = out := List.dropLast_concat
  unfold lastVal
  by_cases hnm : lastName p = nm
  · rw [List.filter_cons_of_pos (by simp [hp, hnm])]
    cases hF : t.filter (fun q => decide (q.dropLast ≠ out) && (lastName q == nm)) with
    | nil =>
      show lookupFile (setFile fs (out ++ [lastName p]) v) (out ++ [nm]) = lookupFile fs p
      rw [lookupFile_setFile, if_pos (by rw [hnm]), hv]
    | cons q f' =>
      rw [List.getLast?_cons_cons]
      cases hg : (q :: f').getLast? with
      | none => simp at hg
      | some r =>
        show lookupFile (setFile fs (out ++ [lastName p]) v) r = lookupFile fs r
        have hr : r ∈ q :: f' := List.mem_of_getLast?_eq_some hg
        have hrt := List.mem_filter.mp (hF.symm ▸ hr)
        have hrd : r.dropLast ≠ out := by
          have h4 := hrt.2
          simp only [Bool.and_eq_true, decide_eq_true_eq] at h4
          exact h4.1
        have hne : ¬(r = out ++ [lastName p]) := fun he => hrd (by rw [he]; exact hkey_drop)
        rw [lookupFile_setFile, if_neg hne]
  · have hpredp : ¬((decide (p.dropLast ≠ out) && (lastName p == nm)) = true) := by
      simp only [Bool.and_eq_true, decide_eq_true_eq, beq_iff_eq]
      exact fun h => hnm h.2
    have hfcons :
        List.filter (fun q => decide (q.dropLast ≠ out) && (lastName q == nm)) (p :: t)
          = List.filter (fun q => decide (q.dropLast ≠ out) && (lastName q == nm)) t :=
      List.filter_cons_of_neg hpredp
    rw [hfcons]
    cases hF : t.filter (fun q => decide (q.dropLast ≠ out) && (lastName q == nm)) with
    | nil =>
      show lookupFile (setFile fs (out ++ [lastName p]) v) (out ++ [nm])
          = lookupFile fs (out ++ [nm])
      have hne : ¬(out ++ [nm] = out ++ [lastName p]) := by
        intro he
        have h2 := List.append_cancel_left he
        simp only [List.cons.injEq, and_true] at h2
        exact hnm h2.symm
      rw [lookupFile_setFile, if_neg hne]
    | cons q f' =>
      cases hg : (q :: f').getLast? with
      | none => simp at hg
      | some r =>
        show lookupFile (setFile fs (out ++ [lastName p]) v) r = lookupFile fs r
        have hr : r ∈ q :: f' := List.mem_of_getLast?_eq_some hg
        have hrt := List.mem_filter.mp (hF.symm ▸ hr)
        have hrd : r.dropLast ≠ out := by
          have h4 := hrt.2
          simp only [Bool.and_eq_true, decide_eq_true_eq] at h4
          exact h4.1
        have hne : ¬(r = out ++ [lastName p]) := fun he => hrd (by rw [he]; exact hkey_drop)
        rw [lookupFile_setFile, if_neg hne]

theorem gatherLoop_append (out : Path) (l1 : List Path) :
    ∀ (fs : FS) (rest : List Path) (n : Nat),
    (∀ p ∈ l1, goodEntry fs out p) →
    ∃ fs2,
      gatherLoop out fs (l1 ++ rest) n
          = gatherLoop out fs2 rest
              (n + (l1.filter (fun p => decide (p.dropLast ≠ out))).length) ∧
      fs2.dirs = fs.dirs ∧
      (∀ q : Path, q.dropLast ≠ out → lookupFile fs2 q = lookupFile fs q) ∧
      (∀ nm : String, lookupFile fs2 (out ++ [nm]) = lastVal fs out l1 nm) ∧
      (∀ P : Path → Bool, (∀ q : Path, q.dropLast = out → P q = false) →
        fs2.files.filter (fun qv => P qv.1) = fs.files.filter (fun qv => P qv.1)) := by
  induction l1 with
  | nil =>
    intro fs rest n _
    refine ⟨fs, by simp, rfl, fun q _ => rfl, fun nm => by simp [lastVal], fun P _ => rfl⟩
  | cons p t ih =>
    intro fs rest n hgood
    by_cases hp : p.dropLast = out
    · -- entry skipped: its parent is the destination
      have hloop : gatherLoop out fs ((p :: t) ++ rest) n = gatherLoop out fs (t ++ rest) n := by
        simp [gatherLoop, hp]
      obtain ⟨fs2, heq, hdirs, hstab, hlast, hfilt⟩ :=
        ih fs rest n (fun q hq => hgood q (List.mem_cons_of_mem _ hq))
      refine ⟨fs2, ?_, hdirs, hstab, ?_, hfilt⟩
      · rw [hloop, heq, List.filter_cons_of_neg (by simp [hp])]
      · intro nm
        rw [hlast nm]
        unfold lastVal
        rw [List.filter_cons_of_neg (by simp [hp])]
    · -- entry copied
      rcases hgood p (List.mem_cons_self p t) with hskip | ⟨hnd, hsome⟩
      · exact absurd hskip hp
      obtain ⟨v, hv⟩ := Option.isSome_iff_exists.mp hsome
      have hkey_drop : (out ++ [lastName p]).dropLast = out := List.dropLast_concat
      have hcopy : copyIntoDir fs p out = .ok (setFile fs (out ++ [lastName p]) v) := by
        unfold copyIntoDir
        rw [if_neg hnd, hv]
      have hloop : gatherLoop out fs ((p :: t) ++ rest) n
          = gatherLoop out (setFile fs (out ++ [lastName p]) v) (t ++ rest) (n + 1) := by
        simp [gatherLoop, hp, hcopy]
      have hgood' : ∀ q ∈ t, goodEntry (setFile fs (out ++ [lastName p]) v) out q := by
        intro q hq
        rcases hgood q (List.mem_cons_of_mem _ hq) with h1 | ⟨h2, h3⟩
        · exact Or.inl h1
        · refine Or.inr ⟨by rwa [setFile_dirs], ?_⟩
          rw [lookupFile_setFile]
          by_cases hqk : q = out ++ [lastName p]
          · simp [hqk]
          · rwa [if_neg hqk]
      obtain ⟨fs2, heq, hdirs, hstab, hlast, hfilt⟩ :=
        ih (setFile fs (out ++ [lastName p]) v) rest (n + 1) hgood'
      refine ⟨fs2, ?_, ?_, ?_, ?_, ?_⟩
      · rw [hloop, heq, List.filter_cons_of_pos (by simp [hp])]
        congr 1
        simp only [List.length_cons]
        omega
      · rw [hdirs, setFile_dirs]
      · intro q hq
        have hne : ¬(q = out ++ [lastName p]) := fun he => hq (by rw [he]; exact hkey_drop)
        rw [hstab q hq, lookupFile_setFile, if_neg hne]
      · intro nm
        rw [hlast nm]
        exact lastVal_setFile_step fs out p t nm v hp hv
      · intro P hP
        rw [hfilt P hP]
        show (setA fs.files (out ++ [lastName p]) v).filter _ = _
        unfold setA
        rw [List.filter_cons_of_neg (by simp [hP _ hkey_drop]), List.filter_filter]
        apply List.filter_congr
        intro qv _
        by_cases hq : P qv.1 = true
        · have hne : qv.1 ≠ out ++ [lastName p] := by
            intro he
            rw [he, hP _ hkey_drop] at hq
            exact Bool.false_ne_true hq
          simp [hq, hne]
        · rw [Bool.not_eq_true] at hq
          simp [hq]

/-! Gather-level characterization of a successful run. -/

theorem filter_drop_sources (fs : FS) (top : Path) :
    (gatherSources fs top).filter (fun p => decide (p.dropLast ≠ outDir top))
      = matchingFilesToCopy fs top := by
  unfold gatherSources matchingFilesToCopy
  rw [List.filter_filter]
  apply List.filter_congr
  intro a _
  rw [Bool.and_comm]

theorem lastVal_sources_eq (fs : FS) (top : Path) (nm : String) :
    lastVal fs (outDir top) (gatherSources fs top) nm
      = lastVal fs (outDir top) (matchingFilesToCopy fs top) nm := by
  have hlists :
      (gatherSources fs top).filter
          (fun q => decide (q.dropLast ≠ outDir top) && (lastName q == nm))
        = (matchingFilesToCopy fs top).filter
            (fun q => decide (q.dropLast ≠ outDir top) && (lastName q == nm)) := by
    unfold gatherSources matchingFilesToCopy
    rw [List.filter_filter, List.filter_filter]
    apply List.filter_congr
    intro a _
    cases hm : isMatchUnder top a <;> cases hd : decide (a.dropLast ≠ outDir top) <;>
      cases hn : (lastName a == nm) <;> simp [hm, hd, hn]
  unfold lastVal
  rw [hlists]

/-- A successful run of `gather` on a well-formed tree: it completes with
count equal to the number of matching files outside the destination,
creates exactly the destination directory, leaves every path outside the
destination untouched, sets each destination entry to the last copied
source of that name, and preserves the file table away from the
destination. -/
theorem gather_ok_spec (fs : FS) (top : Path)
    (h1 : dirExists fs top = true)
    (h2 : lookupFile fs (outDir top) = none)
    (h3 : noMatchingDirs fs top = true)
    (h5 : filesDirsDisjoint fs = true) :
    ∃ fs2,
      gather fs top = .ok fs2 (matchingFilesToCopy fs top).length ∧
      (∀ d, d ∈ fs2.dirs ↔ (d = outDir top ∨ d ∈ fs.dirs)) ∧
      (∀ q : Path, q.dropLast ≠ outDir top → lookupFile fs2 q = lookupFile fs q) ∧
      (∀ nm : String, lookupFile fs2 (outDir top ++ [nm])
          = lastVal fs (outDir top) (matchingFilesToCopy fs top) nm) ∧
      (∀ P : Path → Bool, (∀ q : Path, q.dropLast = outDir top → P q = false) →
        fs2.files.filter (fun qv => P qv.1) = fs.files.filter (fun qv => P qv.1)) := by
  have hgather : gather fs top
      = gatherLoop (outDir top) (addDir fs (outDir top))
          (rglobPng (addDir fs (outDir top)) top) 0 := by
    unfold gather
    rw [mkdirExistOk_ok fs top h1 h2]
  rw [rglobPng_addDir_eq fs top h3] at hgather
  obtain ⟨fs2, heq, hdirs, hstab, hlast, hfilt⟩ :=
    gatherLoop_append (outDir top) (gatherSources fs top) (addDir fs (outDir top)) [] 0
      (goodEntry_sources fs top h5)
  rw [List.append_nil] at heq
  refine ⟨fs2, ?_, ?_, ?_, ?_, ?_⟩
  · rw [hgather, heq, filter_drop_sources]
    show GatherResult.ok fs2 _ = _
    rw [Nat.zero_add]
  · intro d
    rw [hdirs]
    exact mem_addDir_dirs fs (outDir top) d
  · intro q hq
    rw [hstab q hq, lookupFile_addDir]
  · intro nm
    rw [hlast nm, lastVal_congr_files (addDir_files fs (outDir top)) (outDir top) _ nm,
      lastVal_sources_eq]
  · intro P hP
    have := hfilt P hP
    rwa [addDir_files] at this

/-! Helper facts about the spec-side quantities. -/

theorem mem_matching_facts {fs : FS} {top : Path} {q : Path}
    (hq : q ∈ matchingFilesToCopy fs top) :
    q ∈ fileKeys fs ∧ isUnder top q = true ∧ matchesPng (lastName q) = true ∧
      q.dropLast ≠ outDir top := by
  have h := List.mem_filter.mp hq
  have h2 := h.2
  simp only [Bool.and_eq_true, decide_eq_true_eq] at h2
  obtain ⟨hM, hD⟩ := h2
  unfold isMatchUnder at hM
  simp only [Bool.and_eq_true] at hM
  exact ⟨h.1, hM.1, hM.2, hD⟩

theorem lastVal_of_not_matching (fs : FS) (top : Path) (nm : String)
    (h : matchesPng nm = false) :
    lastVal fs (outDir top) (matchingFilesToCopy fs top) nm
      = lookupFile fs (outDir top ++ [nm]) := by
  have hnil : (matchingFilesToCopy fs top).filter
      (fun q => decide (q.dropLast ≠ outDir top) && (lastName q == nm)) = [] := by
    rw [List.filter_eq_nil_iff]
    intro q hq hcontra
    simp only [Bool.and_eq_true, beq_iff_eq] at hcontra
    have hmatch := (mem_matching_facts hq).2.2.1
    rw [hcontra.2, h] at hmatch
    exact Bool.false_ne_true hmatch
  unfold lastVal
  rw [hnil]
  rfl

theorem lastVal_mem_isSome (fs : FS) (top : Path) {p : Path}
    (hp : p ∈ matchingFilesToCopy fs top) :
    (lastVal fs (outDir top) (matchingFilesToCopy fs top) (lastName p)).isSome = true := by
  have hfacts := mem_matching_facts hp
  have hpL : p ∈ (matchingFilesToCopy fs top).filter
      (fun q => decide (q.dropLast ≠ outDir top) && (lastName q == lastName p)) :=
    List.mem_filter.mpr ⟨hp, by simp [hfacts.2.2.2]⟩
  cases hg : ((matchingFilesToCopy fs top).filter
      (fun q => decide (q.dropLast ≠ outDir top) && (lastName q == lastName p))).getLast? with
  | none =>
    rw [List.getLast?_eq_none_iff] at hg
    rw [hg] at hpL
    exact absurd hpL (List.not_mem_nil p)
  | some r =>
    unfold lastVal
    rw [hg]
    have hr2 := (List.mem_filter.mp (List.mem_of_getLast?_eq_some hg)).1
    exact lookupA_isSome_of_mem (mem_matching_facts hr2).1

theorem lastVal_isSome_cases (fs : FS) (top : Path) (nm : String) :
    (lastVal fs (outDir top) (matchingFilesToCopy fs top) nm).isSome = true →
    matchesPng nm = true ∨ (lookupFile fs (outDir top ++ [nm])).isSome = true := by
  unfold lastVal
  cases hg : ((matchingFilesToCopy fs top).filter
      (fun q => decide (q.dropLast ≠ outDir top) && (lastName q == nm))).getLast? with
  | none => exact fun h => Or.inr h
  | some r =>
    intro _
    left
    have hrm := List.mem_filter.mp (List.mem_of_getLast?_eq_some hg)
    have hname : lastName r = nm := by
      have h4 := hrm.2
      simp only [Bool.and_eq_true, beq_iff_eq] at h4
      exact h4.2
    rw [← hname]
    exact (mem_matching_facts hrm.1).2.2.1

/-! The claims. -/

/-- Claim C1: on a tree whose `*.png` matches (outside the destination) are
`k` regular files, a run completes and reports count `k`, the matched files
all have copies in the destination, every file whose name does not match
`*.png` is left untouched and no copy of it appears anywhere, and the only
paths whose content changes are destination entries with matching names. -/
theorem gather_copies_exactly_the_matches (fs : FS) (top : Path)
    (h1 : dirExists fs top = true)
    (h2 : lookupFile fs (outDir top) = none)
    (h3 : noMatchingDirs fs top = true)
    (h5 : filesDirsDisjoint fs = true) :
    ∃ fs2,
      gather fs top = .ok fs2 (matchingFilesToCopy fs top).length ∧
      (∀ p ∈ matchingFilesToCopy fs top,
        (lookupFile fs2 (outDir top ++ [lastName p])).isSome = true) ∧
      (∀ p : Path, matchesPng (lastName p) = false → lookupFile fs2 p = lookupFile fs p) ∧
      (∀ p : Path, lookupFile fs2 p ≠ lookupFile fs p →
        p.dropLast = outDir top ∧ matchesPng (lastName p) = true) := by
  obtain ⟨fs2, hok, hdirs, hstab, hlast, hfilt⟩ := gather_ok_spec fs top h1 h2 h3 h5
  have hnonpng : ∀ p : Path, matchesPng (lastName p) = false →
      lookupFile fs2 p = lookupFile fs p := by
    intro p hm
    by_cases hd : p.dropLast = outDir top
    · have hpne : p ≠ [] := by
        intro h0
        rw [h0] at hd
        exact outDir_ne_nil top hd.symm
      have hdec : p = outDir top ++ [lastName p] := by
        rw [← hd]
        exact (eq_dropLast_concat hpne).symm
      rw [hdec, hlast (lastName p), lastVal_of_not_matching fs top (lastName p) hm, ← hdec]
    · exact hstab p hd
  refine ⟨fs2, hok, ?_, hnonpng, ?_⟩
  · intro p hp
    rw [hlast (lastName p)]
    exact lastVal_mem_isSome fs top hp
  · intro p hne
    by_cases hd : p.dropLast = outDir top
    · refine ⟨hd, ?_⟩
      by_contra hm
      rw [Bool.not_eq_true] at hm
      exact hne (hnonpng p hm)
    · exact absurd (hstab p hd) hne

/-- Claim C5: during the traversal, a matched entry is skipped iff its
immediate parent is exactly the destination: the count equals the number of
matched entries whose parent is not the destination, each such entry gets a
copy in the destination, and the destination contents are determined by the
non-skipped entries alone. -/
theorem skip_iff_parent_is_destination (fs : FS) (top : Path)
    (h1 : dirExists fs top = true)
    (h2 : lookupFile fs (outDir top) = none)
    (h3 : noMatchingDirs fs top = true)
    (h5 : filesDirsDisjoint fs = true) :
    ∃ fs2,
      gather fs top = .ok fs2
        ((gatherSources fs top).filter (fun p => decide (p.dropLast ≠ outDir top))).length ∧
      (∀ p ∈ gatherSources fs top, p.dropLast ≠ outDir top →
        (lookupFile fs2 (outDir top ++ [lastName p])).isSome = true) ∧
      (∀ nm : String, lookupFile fs2 (outDir top ++ [nm])
          = lastVal fs (outDir top) (matchingFilesToCopy fs top) nm) := by
  obtain ⟨fs2, hok, hdirs, hstab, hlast, hfilt⟩ := gather_ok_spec fs top h1 h2 h3 h5
  refine ⟨fs2, ?_, ?_, hlast⟩
  · rw [filter_drop_sources]
    exact hok
  · intro p hp hd
    have hpm : p ∈ matchingFilesToCopy fs top := by
      have h := List.mem_filter.mp hp
      unfold matchingFilesToCopy
      unfold gatherSources at h
      exact List.mem_filter.mpr ⟨h.1, by simp [h.2, hd]⟩
    rw [hlast (lastName p)]
    exact lastVal_mem_isSome fs top hpm

/-- Claim C6: the destination is `root ++ ["plots"]`, a direct child of the
root; when it already exists `mkdir(exist_ok=True)` is a no-op rather than
an error; after a successful run it is a directory, and a run with zero
matches still succeeds with count 0. -/
theorem destination_directory_spec (fs : FS) (top : Path)
    (h1 : dirExists fs top = true)
    (h2 : lookupFile fs (outDir top) = none)
    (h3 : noMatchingDirs fs top = true)
    (h5 : filesDirsDisjoint fs = true) :
    outDir top = top ++ ["plots"] ∧
    (outDir top).dropLast = top ∧
    (outDir top ∈ fs.dirs → mkdirExistOk fs (outDir top) = Except.ok fs) ∧
    ∃ fs2,
      gather fs top = .ok fs2 (matchingFilesToCopy fs top).length ∧
      outDir top ∈ fs2.dirs ∧
      (matchingFilesToCopy fs top = [] → gather fs top = .ok fs2 0) := by
  obtain ⟨fs2, hok, hdirs, _, _, _⟩ := gather_ok_spec fs top h1 h2 h3 h5
  refine ⟨rfl, outDir_dropLast top, ?_, fs2, hok, ?_, ?_⟩
  · intro hmem
    unfold mkdirExistOk
    rw [if_pos hmem]
  · exact (hdirs (outDir top)).mpr (Or.inl rfl)
  · intro hnil
    rw [hok]
    simp [hnil]

/-- Claim C7: copies land in the destination under their base name; when
several matched files share a base name, the destination entry ends up with
the content of the one visited last in traversal order. -/
theorem later_visited_copy_wins (fs : FS) (top : Path)
    (h1 : dirExists fs top = true)
    (h2 : lookupFile fs (outDir top) = none)
    (h3 : noMatchingDirs fs top = true)
    (h5 : filesDirsDisjoint fs = true)
    (nm : String) (q : Path)
    (hq : ((matchingFilesToCopy fs top).filter (fun p => lastName p == nm)).getLast?
        = some q) :
    ∃ fs2,
      gather fs top = .ok fs2 (matchingFilesToCopy fs top).length ∧
      lookupFile fs2 (outDir top ++ [nm]) = lookupFile fs q := by
  obtain ⟨fs2, hok, hdirs, hstab, hlast, hfilt⟩ := gather_ok_spec fs top h1 h2 h3 h5
  refine ⟨fs2, hok, ?_⟩
  rw [hlast nm]
  have hfilter_eq : (matchingFilesToCopy fs top).filter
      (fun p => decide (p.dropLast ≠ outDir top) && (lastName p == nm))
      = (matchingFilesToCopy fs top).filter (fun p => lastName p == nm) := by
    apply List.filter_congr
    intro a ha
    have hd := (mem_matching_facts ha).2.2.2
    simp [hd]
  unfold lastVal
  rw [hfilter_eq, hq]

/-! Stability of the run across repetition. -/

theorem map_fst_filter_comm (l : List (Path × Nat)) (P : Path → Bool) :
    (l.map Prod.fst).filter P = (l.filter (fun qv => P qv.1)).map Prod.fst := by
  induction l with
  | nil => rfl
  | cons qv t ih =>
    by_cases h : P qv.1 = true
    · have hL : (qv.1 :: t.map Prod.fst).filter P = qv.1 :: (t.map Prod.fst).filter P :=
        List.filter_cons_of_pos h
      have hR : ((qv :: t).filter (fun qv => P qv.1)) = qv :: t.filter (fun qv => P qv.1) :=
        List.filter_cons_of_pos h
      rw [List.map_cons, hL, hR, List.map_cons, ih]
    · have hL : (qv.1 :: t.map Prod.fst).filter P = (t.map Prod.fst).filter P :=
        List.filter_cons_of_neg (by simp [h])
      have hR : ((qv :: t).filter (fun qv => P qv.1)) = t.filter (fun qv => P qv.1) :=
        List.filter_cons_of_neg (by simp [h])
      rw [List.map_cons, hL, hR, ih]

/-- Claim C2 (amended): running the gatherer twice yields the same final
filesystem as running it once; but the second run reports the *same* count
as the first (the originals outside the destination are copied again; only
the copies inside the destination are skipped). -/
theorem second_run_same_files_same_count (fs : FS) (top : Path)
    (h1 : dirExists fs top = true)
    (h2 : lookupFile fs (outDir top) = none)
    (h3 : noMatchingDirs fs top = true)
    (h5 : filesDirsDisjoint fs = true) :
    ∃ fs2 k,
      gather fs top = .ok fs2 k ∧
      ∃ fs3,
        gather fs2 top = .ok fs3 k ∧
        (∀ p : Path, lookupFile fs3 p = lookupFile fs2 p) ∧
        (∀ d : Path, d ∈ fs3.dirs ↔ d ∈ fs2.dirs) := by
  obtain ⟨fs2, hok, hdirs, hstab, hlast, hfilt⟩ := gather_ok_spec fs top h1 h2 h3 h5
  -- the four hypotheses hold again for the filesystem after the first run
  have h1' : dirExists fs2 top = true := by
    unfold dirExists at h1 ⊢
    simp only [Bool.or_eq_true, decide_eq_true_eq] at h1 ⊢
    rcases h1 with h | h
    · exact Or.inl h
    · exact Or.inr ((hdirs top).mpr (Or.inr h))
  have h2' : lookupFile fs2 (outDir top) = none := by
    have hd : (outDir top).dropLast ≠ outDir top := by
      rw [outDir_dropLast]
      exact (outDir_ne_top top).symm
    rw [hstab (outDir top) hd]
    exact h2
  have h3' : noMatchingDirs fs2 top = true := by
    unfold noMatchingDirs
    rw [List.all_eq_true]
    intro d hd
    rcases (hdirs d).mp hd with rfl | hmem
    · simp [isMatchUnder_outDir]
    · exact (List.all_eq_true.mp h3) d hmem
  have h5' : filesDirsDisjoint fs2 = true := by
    unfold filesDirsDisjoint
    rw [List.all_eq_true]
    intro p hp
    simp only [decide_eq_true_eq]
    intro hdir
    have hpsome : (lookupFile fs2 p).isSome = true := lookupA_isSome_of_mem hp
    rcases (hdirs p).mp hdir with rfl | hmem
    · rw [h2'] at hpsome
      exact Bool.false_ne_true hpsome
    · by_cases hdp : p.dropLast = outDir top
      · have hpne : p ≠ [] := by
          intro h0
          rw [h0] at hdp
          exact outDir_ne_nil top hdp.symm
        have hdec : p = outDir top ++ [lastName p] := by
          rw [← hdp]
          exact (eq_dropLast_concat hpne).symm
        rw [hdec, hlast (lastName p)] at hpsome
        rcases lastVal_isSome_cases fs top (lastName p) hpsome with hmatch | hsome2
        · -- a directory with a matching name below the root: excluded by h3
          have hMU : isMatchUnder top p = true := by
            have hU : isUnder top p = true := by
              rw [hdec]
              unfold outDir
              rw [List.append_assoc, isUnder_append]
              rfl
            unfold isMatchUnder
            rw [hU, hmatch]
            rfl
          have hforbid := (List.all_eq_true.mp h3) p hmem
          rw [hMU] at hforbid
          simp at hforbid
        · -- a path that is both a file and a directory of the original tree
          rw [← hdec] at hsome2
          have hkeys := mem_of_lookupA_isSome hsome2
          have hdisj := (List.all_eq_true.mp h5) p hkeys
          simp only [decide_eq_true_eq] at hdisj
          exact hdisj hmem
      · rw [hstab p hdp] at hpsome
        have hkeys := mem_of_lookupA_isSome hpsome
        have hdisj := (List.all_eq_true.mp h5) p hkeys
        simp only [decide_eq_true_eq] at hdisj
        exact hdisj hmem
  obtain ⟨fs3, hok2, hdirs2, hstab2, hlast2, hfilt2⟩ := gather_ok_spec fs2 top h1' h2' h3' h5'
  -- the list of files due to be copied is unchanged by the first run
  have hcount : matchingFilesToCopy fs2 top = matchingFilesToCopy fs top := by
    unfold matchingFilesToCopy fileKeys
    rw [map_fst_filter_comm, map_fst_filter_comm]
    rw [hfilt (fun p => isMatchUnder top p && decide (p.dropLast ≠ outDir top))
      (fun q hq => by simp [hq])]
  refine ⟨fs2, (matchingFilesToCopy fs top).length, hok, fs3, ?_, ?_, ?_⟩
  · rw [hok2, hcount]
  · intro p
    by_cases hd : p.dropLast = outDir top
    · have hpne : p ≠ [] := by
        intro h0
        rw [h0] at hd
        exact outDir_ne_nil top hd.symm
      have hdec : p = outDir top ++ [lastName p] := by
        rw [← hd]
        exact (eq_dropLast_concat hpne).symm
      rw [hdec, hlast2 (lastName p), hcount]
      cases hg : ((matchingFilesToCopy fs top).filter
          (fun q => decide (q.dropLast ≠ outDir top) && (lastName q == lastName p))).getLast? with
      | none =>
        unfold lastVal
        rw [hg]
      | some r =>
        unfold lastVal
        rw [hg]
        show lookupFile fs2 r = lookupFile fs2 (outDir top ++ [lastName p])
        have hrm := List.mem_filter.mp (List.mem_of_getLast?_eq_some hg)
        have hrd : r.dropLast ≠ outDir top := (mem_matching_facts hrm.1).2.2.2
        rw [hstab r hrd, hlast (lastName p)]
        unfold lastVal
        rw [hg]
    · exact hstab2 p hd
  · intro d
    rw [hdirs2 d]
    constructor
    · intro h
      rcases h with he | h
      · rw [he]
        exact (hdirs (outDir top)).mpr (Or.inl rfl)
      · exact h
    · exact Or.inr

/-! The frame property, for all runs (successful or aborted). -/

theorem gatherLoop_frame (out : Path) (l : List Path) :
    ∀ (fs : FS) (n : Nat),
      (finalFS (gatherLoop out fs l n)).dirs = fs.dirs ∧
      (∀ p v, lookupFile fs p = some v →
        (lookupFile (finalFS (gatherLoop out fs l n)) p).isSome = true) ∧
      (∀ p : Path, lookupFile (finalFS (gatherLoop out fs l n)) p ≠ lookupFile fs p →
        p.dropLast = out ∧ ∃ q, q ∈ l ∧ q.dropLast ≠ out ∧
          (lookupFile fs q).isSome = true ∧ p = out ++ [lastName q]) := by
  induction l with
  | nil =>
    intro fs n
    exact ⟨rfl, fun p v hv => by rw [show finalFS (gatherLoop out fs [] n) = fs from rfl, hv]; rfl,
      fun p h => absurd rfl h⟩
  | cons a t ih =>
    intro fs n
    by_cases ha : a.dropLast = out
    · have hstep : gatherLoop out fs (a :: t) n = gatherLoop out fs t n := by
        simp [gatherLoop, ha]
      rw [hstep]
      obtain ⟨ih1, ih2, ih3⟩ := ih fs n
      refine ⟨ih1, ih2, ?_⟩
      intro p' h
      obtain ⟨hd, q, hqmem, hqd, hqs, hpe⟩ := ih3 p' h
      exact ⟨hd, q, List.mem_cons_of_mem _ hqmem, hqd, hqs, hpe⟩
    · by_cases hnd : a ∈ fs.dirs
      · have hstep : gatherLoop out fs (a :: t) n = .err fs .isADirectory := by
          simp [gatherLoop, ha, copyIntoDir, hnd]
        rw [hstep]
        exact ⟨rfl, fun p v hv => by rw [show finalFS (.err fs .isADirectory) = fs from rfl, hv]; rfl,
          fun p h => absurd rfl h⟩
      · cases hv : lookupFile fs a with
        | none =>
          have hstep : gatherLoop out fs (a :: t) n = .err fs .notFound := by
            simp [gatherLoop, ha, copyIntoDir, hnd, hv]
          rw [hstep]
          exact ⟨rfl, fun p v hv' => by rw [show finalFS (.err fs .notFound) = fs from rfl, hv']; rfl,
            fun p h => absurd rfl h⟩
        | some v =>
          have hstep : gatherLoop out fs (a :: t) n
              = gatherLoop out (setFile fs (out ++ [lastName a]) v) t (n + 1) := by
            simp [gatherLoop, ha, copyIntoDir, hnd, hv]
          rw [hstep]
          obtain ⟨ih1, ih2, ih3⟩ := ih (setFile fs (out ++ [lastName a]) v) (n + 1)
          have hkd : (out ++ [lastName a]).dropLast = out := List.dropLast_concat
          refine ⟨by rw [ih1, setFile_dirs], ?_, ?_⟩
          · intro p' v' hv'
            by_cases hpk : p' = out ++ [lastName a]
            · exact ih2 p' v (by rw [lookupFile_setFile, if_pos hpk])
            · exact ih2 p' v' (by rw [lookupFile_setFile, if_neg hpk]; exact hv')
          · intro p' hne
            by_cases hch : lookupFile
                (finalFS (gatherLoop out (setFile fs (out ++ [lastName a]) v) t (n + 1))) p'
                = lookupFile (setFile fs (out ++ [lastName a]) v) p'
            · have hsne : lookupFile (setFile fs (out ++ [lastName a]) v) p'
                  ≠ lookupFile fs p' := by
                rw [← hch]
                exact hne
              have hpk : p' = out ++ [lastName a] := by
                by_contra hpk
                rw [lookupFile_setFile, if_neg hpk] at hsne
                exact hsne rfl
              refine ⟨by rw [hpk]; exact hkd, a, List.mem_cons_self a t, ha, ?_, by rw [hpk]⟩
              rw [hv]
              rfl
            · obtain ⟨hd, q, hqmem, hqd, hqs, hpe⟩ := ih3 p' hch
              have hqk : q ≠ out ++ [lastName a] := fun he => hqd (by rw [he]; exact hkd)
              rw [lookupFile_setFile, if_neg hqk] at hqs
              exact ⟨hd, q, List.mem_cons_of_mem _ hqmem, hqd, hqs, hpe⟩

/-- Claim C8: a run creates at most one new directory (the destination),
never removes a directory or deletes a file, and the only contents it
changes are destination entries named after matched existing sources. -/
theorem run_filesystem_frame (fs : FS) (top : Path) :
    (∀ d, d ∈ (finalFS (gather fs top)).dirs → d = outDir top ∨ d ∈ fs.dirs) ∧
    (∀ d, d ∈ fs.dirs → d ∈ (finalFS (gather fs top)).dirs) ∧
    (∀ p v, lookupFile fs p = some v →
      (lookupFile (finalFS (gather fs top)) p).isSome = true) ∧
    (∀ p : Path, lookupFile (finalFS (gather fs top)) p ≠ lookupFile fs p →
      p.dropLast = outDir top ∧
      ∃ q : Path, isMatchUnder top q = true ∧ (lookupFile fs q).isSome = true ∧
        p = outDir top ++ [lastName q]) := by
  cases hmk : mkdirExistOk fs (outDir top) with
  | error e =>
    have hg : gather fs top = .err fs e := by
      unfold gather
      rw [hmk]
    rw [hg]
    exact ⟨fun d hd => Or.inr hd, fun d hd => hd,
      fun p v hv => by rw [show finalFS (.err fs e) = fs from rfl, hv]; rfl,
      fun p h => absurd rfl h⟩
  | ok fs1 =>
    obtain ⟨hfiles1, hdirs1⟩ := mkdirExistOk_ok_char hmk
    have hg : gather fs top = gatherLoop (outDir top) fs1 (rglobPng fs1 top) 0 := by
      unfold gather
      rw [hmk]
    obtain ⟨lf1, lf2, lf3⟩ := gatherLoop_frame (outDir top) (rglobPng fs1 top) fs1 0
    rw [hg]
    have hlookup1 : ∀ p, lookupFile fs1 p = lookupFile fs p := by
      intro p
      unfold lookupFile
      rw [hfiles1]
    refine ⟨?_, ?_, ?_, ?_⟩
    · intro d hd
      rw [lf1] at hd
      exact (hdirs1 d).mp hd
    · intro d hd
      rw [lf1]
      exact (hdirs1 d).mpr (Or.inr hd)
    · intro p v hv
      exact lf2 p v (by rw [hlookup1]; exact hv)
    · intro p hne
      have hne1 : lookupFile (finalFS (gatherLoop (outDir top) fs1 (rglobPng fs1 top) 0)) p
          ≠ lookupFile fs1 p := by
        rw [hlookup1]
        exact hne
      obtain ⟨hd, q, hqmem, hqd, hqs, hpe⟩ := lf3 p hne1
      have hqmatch := (List.mem_filter.mp hqmem).2
      rw [hlookup1] at hqs
      exact ⟨hd, q, hqmatch, hqs, hpe⟩

/-! Aborted runs. -/

theorem gatherLoop_err_of_bad_dir (out : Path) (l : List Path) :
    ∀ (fs : FS) (n : Nat), (∃ p, p ∈ l ∧ p ∈ fs.dirs ∧ p.dropLast ≠ out) →
    ∃ fsE e, gatherLoop out fs l n = .err fsE e := by
  induction l with
  | nil =>
    intro fs n ⟨p, hp, _⟩
    exact absurd hp (List.not_mem_nil p)
  | cons a t ih =>
    intro fs n ⟨p, hp, hpd, hpdl⟩
    by_cases ha : a.dropLast = out
    · have hstep : gatherLoop out fs (a :: t) n = gatherLoop out fs t n := by
        simp [gatherLoop, ha]
      rw [hstep]
      apply ih fs n
      refine ⟨p, ?_, hpd, hpdl⟩
      rcases List.mem_cons.mp hp with rfl | h
      · exact absurd ha hpdl
      · exact h
    · by_cases hnd : a ∈ fs.dirs
      · exact ⟨fs, .isADirectory, by simp [gatherLoop, ha, copyIntoDir, hnd]⟩
      · cases hv : lookupFile fs a with
        | none => exact ⟨fs, .notFound, by simp [gatherLoop, ha, copyIntoDir, hnd, hv]⟩
        | some v =>
          have hstep : gatherLoop out fs (a :: t) n
              = gatherLoop out (setFile fs (out ++ [lastName a]) v) t (n + 1) := by
            simp [gatherLoop, ha, copyIntoDir, hnd, hv]
          rw [hstep]
          apply ih
          refine ⟨p, ?_, by rw [setFile_dirs]; exact hpd, hpdl⟩
          rcases List.mem_cons.mp hp with rfl | h
          · exact absurd hpd hnd
          · exact h

/-- Claim C10: the traversal yields any entry whose name matches `*.png`,
directories included; a matching directory outside the destination is
enumerated, and the run aborts with an uncaught error when it is reached. -/
theorem matching_directory_aborts_run (fs : FS) (top : Path) (d : Path)
    (h1 : dirExists fs top = true) (h2 : lookupFile fs (outDir top) = none)
    (hd : d ∈ fs.dirs) (hmatch : isMatchUnder top d = true)
    (hpar : d.dropLast ≠ outDir top) :
    d ∈ rglobPng (addDir fs (outDir top)) top ∧
    ∃ fsE e, gather fs top = .err fsE e := by
  have hmem : d ∈ rglobPng (addDir fs (outDir top)) top := by
    unfold rglobPng
    apply List.mem_filter.mpr
    refine ⟨?_, hmatch⟩
    apply List.mem_append.mpr
    right
    exact (mem_addDir_dirs fs (outDir top) d).mpr (Or.inr hd)
  refine ⟨hmem, ?_⟩
  have hg : gather fs top = gatherLoop (outDir top) (addDir fs (outDir top))
      (rglobPng (addDir fs (outDir top)) top) 0 := by
    unfold gather
    rw [mkdirExistOk_ok fs top h1 h2]
  rw [hg]
  exact gatherLoop_err_of_bad_dir (outDir top) _ _ 0
    ⟨d, hmem, (mem_addDir_dirs fs (outDir top) d).mpr (Or.inr hd), hpar⟩

/-- Claim C9: when the copy of an entry fails mid-traversal, the run aborts
with the error and no summary; the entries copied before the failure remain
in the destination (no rollback), nothing after the failing entry is
copied, and everything outside the destination is untouched. -/
theorem copy_failure_aborts_without_rollback (fs : FS) (top : Path)
    (l1 l2 : List Path) (bad : Path)
    (h1 : dirExists fs top = true) (h2 : lookupFile fs (outDir top) = none)
    (hsplit : rglobPng (addDir fs (outDir top)) top = l1 ++ bad :: l2)
    (hgood : ∀ p ∈ l1, goodEntry (addDir fs (outDir top)) (outDir top) p)
    (hbadDir : bad ∈ fs.dirs) (hbadPar : bad.dropLast ≠ outDir top) :
    ∃ fsE,
      gather fs top = .err fsE .isADirectory ∧
      (∀ q : Path, q.dropLast ≠ outDir top → lookupFile fsE q = lookupFile fs q) ∧
      (∀ nm : String, lookupFile fsE (outDir top ++ [nm]) = lastVal fs (outDir top) l1 nm) ∧
      (∀ d, d ∈ fsE.dirs ↔ (d = outDir top ∨ d ∈ fs.dirs)) := by
  have hg : gather fs top = gatherLoop (outDir top) (addDir fs (outDir top))
      (rglobPng (addDir fs (outDir top)) top) 0 := by
    unfold gather
    rw [mkdirExistOk_ok fs top h1 h2]
  rw [hsplit] at hg
  obtain ⟨fsE, heq, hdirs, hstab, hlast, _⟩ :=
    gatherLoop_append (outDir top) l1 (addDir fs (outDir top)) (bad :: l2) 0 hgood
  rw [heq] at hg
  have hbadDir1 : bad ∈ fsE.dirs := by
    rw [hdirs]
    exact (mem_addDir_dirs _ _ _).mpr (Or.inr hbadDir)
  have hstep : gatherLoop (outDir top) fsE (bad :: l2)
      (0 + (l1.filter (fun p => decide (p.dropLast ≠ outDir top))).length)
      = .err fsE .isADirectory := by
    simp [gatherLoop, hbadPar, copyIntoDir, hbadDir1]
  rw [hstep] at hg
  refine ⟨fsE, hg, ?_, ?_, ?_⟩
  · intro q hq
    rw [hstab q hq, lookupFile_addDir]
  · intro nm
    rw [hlast nm, lastVal_congr_files (addDir_files fs (outDir top)) _ _ nm]
  · intro d
    rw [hdirs]
    exact mem_addDir_dirs fs (outDir top) d

/-- Claim C3 (amended): cancelling the dialog yields the empty string, and
`Path("")` is the path of the current working directory (its component
list is empty) rather than a nonexistent path: the gatherer then runs over
the working directory and completes normally with a summary. -/
theorem cancel_runs_on_working_directory (fs : FS)
    (h2 : lookupFile fs (outDir []) = none)
    (h3 : noMatchingDirs fs [] = true)
    (h5 : filesDirsDisjoint fs = true) :
    promptForDir "" = [] ∧
    main none "" fs = gather fs [] ∧
    ∃ fs2, main none "" fs = .ok fs2 (matchingFilesToCopy fs []).length := by
  have hpath : promptForDir "" = [] := by decide
  have hmain : main none "" fs = gather fs [] := by
    show gather fs (promptForDir "") = gather fs []
    rw [hpath]
  obtain ⟨fs2, hok, _, _, _, _⟩ := gather_ok_spec fs [] rfl h2 h3 h5
  exact ⟨hpath, hmain, fs2, by rw [hmain]; exact hok⟩

/-! Concrete filesystems used by the witnesses and counterexamples. -/

/-- An empty working directory. -/
def fsEmptyFS : FS := ⟨[], []⟩

/-- One matching file and one non-matching file, plus an unrelated dir. -/
def fsPair : FS := ⟨[["sub"]], [(["x.png"], 7), (["doc.txt"], 8)]⟩

/-- A single matching file at the root. -/
def fsOnePng : FS := ⟨[], [(["a.png"], 0)]⟩

/-- The end-to-end scenario tree `root/{a.png, sub/b.png, sub/plots/old.png, c.txt}`. -/
def fsScenario : FS :=
  ⟨[["sub"], ["sub", "plots"]],
   [(["a.png"], 1), (["sub", "b.png"], 2), (["sub", "plots", "old.png"], 3), (["c.txt"], 4)]⟩

/-- A tree already holding a copy inside the destination. -/
def fsSkip : FS := ⟨[["plots"]], [(["a.png"], 1), (["plots", "old.png"], 2)]⟩

/-- A tree with an existing destination and no matching file. -/
def fsNoMatch : FS := ⟨[["plots"]], [(["n.txt"], 3)]⟩

/-- Two matching files with the same base name in different directories. -/
def fsCollide : FS := ⟨[["x"], ["y"]], [(["x", "a.png"], 1), (["y", "a.png"], 2)]⟩

/-- A matching file next to a *directory* whose name matches `*.png`. -/
def fsBadDir : FS := ⟨[["d.png"]], [(["a.png"], 5)]⟩

/-! Witnesses, counterexamples and concrete instances. -/

/-- Witness for C1 at a concrete tree (one match, one non-match). -/
theorem gather_copies_exactly_the_matches_witness :
    ∃ fs2,
      gather fsPair [] = .ok fs2 (matchingFilesToCopy fsPair []).length ∧
      (∀ p ∈ matchingFilesToCopy fsPair [],
        (lookupFile fs2 (outDir [] ++ [lastName p])).isSome = true) ∧
      (∀ p : Path, matchesPng (lastName p) = false → lookupFile fs2 p = lookupFile fsPair p) ∧
      (∀ p : Path, lookupFile fs2 p ≠ lookupFile fsPair p →
        p.dropLast = outDir [] ∧ matchesPng (lastName p) = true) :=
  gather_copies_exactly_the_matches fsPair [] (by decide) (by decide) (by decide) (by decide)

/-- Counterexample to C2 as stated: after a first run over a tree with one
matching file, the second run reports count 1 — not 0 — because the
original file outside the destination is copied again. -/
theorem second_run_count_is_not_zero :
    countOf (gather (finalFS (gather fsOnePng [])) []) = some 1 ∧
    countOf (gather (finalFS (gather fsOnePng [])) []) ≠ some 0 := by
  decide

/-- Witness for the amended C2 at a concrete tree. -/
theorem second_run_same_files_same_count_witness :
    ∃ fs2 k,
      gather fsOnePng [] = .ok fs2 k ∧
      ∃ fs3,
        gather fs2 [] = .ok fs3 k ∧
        (∀ p : Path, lookupFile fs3 p = lookupFile fs2 p) ∧
        (∀ d : Path, d ∈ fs3.dirs ↔ d ∈ fs2.dirs) :=
  second_run_same_files_same_count fsOnePng [] (by decide) (by decide) (by decide) (by decide)

/-- Counterexample to C3 as stated: with the dialog cancelled, the run over
an (empty) working directory prints the summary `Copied 0 files.` and does
not fail, while a truly nonexistent root produces an error and no
summary. -/
theorem cancel_prints_summary_counterexample :
    countOf (main none "" fsEmptyFS) = some 0 ∧
    countOf (gather fsEmptyFS ["missing"]) = none := by
  decide

/-- Witness for the amended C3 at a concrete working directory. -/
theorem cancel_runs_on_working_directory_witness :
    promptForDir "" = [] ∧
    main none "" fsEmptyFS = gather fsEmptyFS [] ∧
    ∃ fs2, main none "" fsEmptyFS = .ok fs2 (matchingFilesToCopy fsEmptyFS []).length :=
  cancel_runs_on_working_directory fsEmptyFS (by decide) (by decide) (by decide)

/-- Counterexample to C4 as stated: on the scenario tree the reported count
is 3, not 2 — `sub/plots/old.png` is copied, because its parent
`sub/plots` is not the destination `root/plots`. -/
theorem scenario_count_is_not_two :
    countOf (gather fsScenario []) ≠ some 2 ∧
    countOf (gather fsScenario []) = some 3 := by
  decide

/-- Amended C4: after the run, `root/plots` contains `a.png`, `b.png` and
`old.png` (the latter copied from `sub/plots`), the original files —
including `sub/plots/old.png` — are untouched, `c.txt` is not copied, and
the reported count is 3. -/
theorem scenario_end_to_end_amended :
    countOf (gather fsScenario []) = some 3 ∧
    lookupFile (finalFS (gather fsScenario [])) ["plots", "a.png"] = some 1 ∧
    lookupFile (finalFS (gather fsScenario [])) ["plots", "b.png"] = some 2 ∧
    lookupFile (finalFS (gather fsScenario [])) ["plots", "old.png"] = some 3 ∧
    lookupFile (finalFS (gather fsScenario [])) ["a.png"] = some 1 ∧
    lookupFile (finalFS (gather fsScenario [])) ["sub", "b.png"] = some 2 ∧
    lookupFile (finalFS (gather fsScenario [])) ["sub", "plots", "old.png"] = some 3 ∧
    lookupFile (finalFS (gather fsScenario [])) ["c.txt"] = some 4 ∧
    lookupFile (finalFS (gather fsScenario [])) ["plots", "c.txt"] = none ∧
    ["plots"] ∈ (finalFS (gather fsScenario [])).dirs := by
  decide

/-- Witness for C5 at a concrete tree with a pre-populated destination. -/
theorem skip_iff_parent_is_destination_witness :
    ∃ fs2,
      gather fsSkip [] = .ok fs2
        ((gatherSources fsSkip []).filter (fun p => decide (p.dropLast ≠ outDir []))).length ∧
      (∀ p ∈ gatherSources fsSkip [], p.dropLast ≠ outDir [] →
        (lookupFile fs2 (outDir [] ++ [lastName p])).isSome = true) ∧
      (∀ nm : String, lookupFile fs2 (outDir [] ++ [nm])
          = lastVal fsSkip (outDir []) (matchingFilesToCopy fsSkip []) nm) :=
  skip_iff_parent_is_destination fsSkip [] (by decide) (by decide) (by decide) (by decide)

/-- Witness for C6 at a concrete tree with zero matches and an existing
destination. -/
theorem destination_directory_spec_witness :
    outDir [] = [] ++ ["plots"] ∧
    (outDir []).dropLast = [] ∧
    (outDir [] ∈ fsNoMatch.dirs → mkdirExistOk fsNoMatch (outDir []) = Except.ok fsNoMatch) ∧
    ∃ fs2,
      gather fsNoMatch [] = .ok fs2 (matchingFilesToCopy fsNoMatch []).length ∧
      outDir [] ∈ fs2.dirs ∧
      (matchingFilesToCopy fsNoMatch [] = [] → gather fsNoMatch [] = .ok fs2 0) :=
  destination_directory_spec fsNoMatch [] (by decide) (by decide) (by decide) (by decide)

/-- Witness for C7 at a concrete name collision: `y/a.png` is visited after
`x/a.png` and its content ends up in `plots/a.png`. -/
theorem later_visited_copy_wins_witness :
    ∃ fs2,
      gather fsCollide [] = .ok fs2 (matchingFilesToCopy fsCollide []).length ∧
      lookupFile fs2 (outDir [] ++ ["a.png"]) = lookupFile fsCollide ["y", "a.png"] :=
  later_visited_copy_wins fsCollide [] (by decide) (by decide) (by decide) (by decide)
    "a.png" ["y", "a.png"] (by decide)

/-- Witness for C9 at a concrete tree: `a.png` is copied, then the matching
directory `d.png` makes the copy fail; the run aborts with the copy of
`a.png` still in place. -/
theorem copy_failure_aborts_without_rollback_witness :
    ∃ fsE,
      gather fsBadDir [] = .err fsE .isADirectory ∧
      (∀ q : Path, q.dropLast ≠ outDir [] → lookupFile fsE q = lookupFile fsBadDir q) ∧
      (∀ nm : String, lookupFile fsE (outDir [] ++ [nm])
          = lastVal fsBadDir (outDir []) [["a.png"]] nm) ∧
      (∀ d, d ∈ fsE.dirs ↔ (d = outDir [] ∨ d ∈ fsBadDir.dirs)) :=
  copy_failure_aborts_without_rollback fsBadDir [] [["a.png"]] [] ["d.png"]
    (by decide) (by decide) (by decide) (by decide) (by decide) (by decide)

/-- Witness for C10 at a concrete tree with a directory named `d.png`. -/
theorem matching_directory_aborts_run_witness :
    ["d.png"] ∈ rglobPng (addDir fsBadDir (outDir [])) [] ∧
    ∃ fsE e, gather fsBadDir [] = .err fsE e :=
  matching_directory_aborts_run fsBadDir [] ["d.png"]
    (by decide) (by decide) (by decide) (by decide) (by decide)

end GatherPng
